import Mathlib

/-!
# Verification of the WinsplitParser XML-results transformation

Shallow embedding of `src/process_xml.py`: an IOF XML results document
(already parsed into an element tree) is transformed into a report with
event metadata, per-competitor results with split times, and a gap-to-best
split analysis.

The element tree is modelled by the nested inductive `Elem`; the ElementTree
operations used by the source (`find(".//ns:X")` = first matching descendant
in document order, `find("ns:X")` = first matching direct child,
`findall(".//ns:X")` = all matching descendants in document order,
`.get(attr)` = attribute lookup, `.text` = optional text node) are given as
Lean functions.  Python runtime failures (AttributeError on `None`,
TypeError/ValueError from `int(...)`, KeyError, ZeroDivisionError,
IndexError) are modelled by the `Except PyErr` monad.  Python floats in
`percentage_gap` are modelled by exact rationals; the division itself is
exact in the source inputs of interest (the claims never depend on float
rounding, only on whether the division raises).
-/

set_option autoImplicit false

/-- The Python runtime errors that the transformation can raise. -/
inductive PyErr : Type where
  | attributeError
  | typeError
  | valueError
  | keyError
  | zeroDivisionError
  | indexError
  deriving DecidableEq, Repr

/-- An XML element: tag (namespace already resolved), attributes, optional
text node, and child elements in document order. -/
inductive Elem : Type where
  | mk (tag : String) (attrs : List (String × String)) (text : Option String)
      (children : List Elem)

def Elem.tag : Elem → String
  | .mk t _ _ _ => t

def Elem.attrs : Elem → List (String × String)
  | .mk _ a _ _ => a

def Elem.text : Elem → Option String
  | .mk _ _ x _ => x

def Elem.children : Elem → List Elem
  | .mk _ _ _ c => c

mutual

/-- The element followed by all its descendants, in document order. -/
def Elem.subtree : Elem → List Elem
  | .mk t a x cs => .mk t a x cs :: Elem.subtreeList cs

/-- All elements of a forest together with their descendants, document order. -/
def Elem.subtreeList : List Elem → List Elem
  | [] => []
  | e :: es => Elem.subtree e ++ Elem.subtreeList es

end

/-- All proper descendants of an element, in document order. -/
def Elem.descendants (e : Elem) : List Elem :=
  Elem.subtreeList e.children

/-- `e.findall(".//ns:tag", ns)`: all descendants with the given tag. -/
def Elem.findallDesc (t : String) (e : Elem) : List Elem :=
  e.descendants.filter (fun d => d.tag = t)

/-- `e.find(".//ns:tag", ns)`: the first descendant with the given tag. -/
def Elem.findDesc (t : String) (e : Elem) : Option Elem :=
  (e.findallDesc t).head?

/-- `e.find("ns:tag", ns)`: the first direct child with the given tag. -/
def Elem.findChild (t : String) (e : Elem) : Option Elem :=
  e.children.find? (fun c => c.tag = t)

/-- `e.get(attr, None)`: attribute lookup. -/
def Elem.get (e : Elem) (k : String) : Option String :=
  (e.attrs.find? (fun p => p.1 = k)).map (fun p => p.2)

/-- Calling a method (`.find`, `.text`) on the result of a failed `find`
raises `AttributeError` in Python. -/
def elemOrError {α : Type} : Option α → Except PyErr α
  | none => .error .attributeError
  | some x => .ok x

/-- `elem.text` where `elem` came from a `find`: `AttributeError` if the
element is absent; otherwise the (possibly absent) text node. -/
def textOf : Option Elem → Except PyErr (Option String)
  | none => .error .attributeError
  | some e => .ok e.text

/-- Python whitespace stripped by `int(str)`. -/
def pySpace (c : Char) : Bool :=
  c = ' ' || c = '\t' || c = '\n' || c = '\r' || c = '\x0b' || c = '\x0c'

/-- Parse a nonempty all-digit character list as a natural number. -/
def parseDigits (cs : List Char) : Option Nat :=
  if cs ≠ [] ∧ cs.all Char.isDigit then
    some (cs.foldl (fun acc c => acc * 10 + (c.toNat - 48)) 0)
  else none

/-- Python `int(s)` on a string: strip whitespace, optional sign, digits. -/
def pyParseInt (s : String) : Option Int :=
  let cs := ((s.toList.dropWhile pySpace).reverse.dropWhile pySpace).reverse
  match cs with
  | '-' :: ds => (parseDigits ds).map (fun n => -(n : Int))
  | '+' :: ds => (parseDigits ds).map (fun n => (n : Int))
  | ds => (parseDigits ds).map (fun n => (n : Int))

/-- Python `int(x)` where `x` is the `.text` of an element: `TypeError` on
`None`, `ValueError` on unparseable text. -/
def parseIntText : Option String → Except PyErr Int
  | none => .error .typeError
  | some s =>
    match pyParseInt s with
    | none => .error .valueError
    | some n => .ok n

/-- Python f-string interpolation of a possibly-`None` string. -/
def pyStrOpt : Option String → String
  | none => "None"
  | some s => s

/-- The `event_data` dict: keys `"name"`, `"class"`, `"date"`. -/
structure EventData : Type where
  name : Option String
  class_name : Option String
  date : Option String
  deriving DecidableEq, Repr

/-- One split dict as built by `_compute_split_information`. -/
structure Split0 : Type where
  control_code : Option String
  time : Option Int
  split_time : Option Int
  deriving DecidableEq, Repr

/-- One split dict after `_add_split_analysis` added its two keys. -/
structure SplitFull : Type where
  control_code : Option String
  time : Option Int
  split_time : Option Int
  split_gap : Option Int
  percentage_gap : Option ℚ
  deriving DecidableEq, Repr

/-- One person dict as built by `_extract_person_result`. -/
structure PersonDict : Type where
  name : String
  club : Option String
  status : Option String
  position : Option Int
  total_time : Int
  splits : List Split0
  deriving DecidableEq, Repr

/-- One person dict after split analysis. -/
structure PersonFull : Type where
  name : String
  club : Option String
  status : Option String
  position : Option Int
  total_time : Int
  splits : List SplitFull
  deriving DecidableEq, Repr

/-- The final report dict returned by `process_xml`. -/
structure Report : Type where
  event_data : EventData
  results : List PersonFull
  winning_time : Int
  deriving DecidableEq, Repr

/-- `_extract_event_data`: event name/date from the first `Event` descendant,
class name from the first `ClassResult` descendant. -/
def extract_event_data (root : Elem) : Except PyErr EventData := do
  let event ← elemOrError (root.findDesc "Event")
  let name ← textOf (event.findDesc "Name")
  let date ← textOf (event.findDesc "Date")
  let class_result ← elemOrError (root.findDesc "ClassResult")
  let class_name ← textOf (class_result.findDesc "Name")
  return { name := name, class_name := class_name, date := date }

/-- One iteration of the loop in `_compute_split_information`: from the
running `previous_time` and one `SplitTime` element, produce the split dict
and the new `previous_time`. -/
def splitStep (previous_time : Option Int) (split : Elem) :
    Except PyErr (Split0 × Option Int) := do
  let status := split.get "status"
  let control_code ← textOf (split.findChild "ControlCode")
  let time ← if status = some "Missing" then pure (none : Option Int)
    else do
      let t ← parseIntText (← textOf (split.findChild "Time"))
      pure (some t)
  let split_time := match previous_time, time with
    | some p, some t => some (t - p)
    | _, _ => none
  return ({ control_code := control_code, time := time, split_time := split_time },
    time)

/-- The loop of `_compute_split_information` over the remaining `SplitTime`
elements, carrying the running `previous_time`. -/
def splitsGo (previous_time : Option Int) : List Elem → Except PyErr (List Split0)
  | [] => .ok []
  | se :: ses => do
    let (s, next) ← splitStep previous_time se
    let rest ← splitsGo next ses
    return s :: rest

/-- `_compute_split_information`: all `SplitTime` descendants in document
order, with `previous_time` initialised to `0`. -/
def compute_split_information (person_result : Elem) : Except PyErr (List Split0) :=
  splitsGo (some 0) (person_result.findallDesc "SplitTime")

/-- `_extract_person_result`: name, club, status, position (only when status
is exactly `"OK"`), total time and splits of one `PersonResult` element. -/
def extract_person_result (person_result : Elem) : Except PyErr PersonDict := do
  let name_elem ← elemOrError (person_result.findDesc "Name")
  let family_name ← textOf (name_elem.findChild "Family")
  let given_name ← textOf (name_elem.findChild "Given")
  let name := pyStrOpt given_name ++ " " ++ pyStrOpt family_name
  let organisation ← elemOrError (person_result.findDesc "Organisation")
  let club ← textOf (organisation.findChild "Name")
  let result ← elemOrError (person_result.findDesc "Result")
  let status ← textOf (result.findDesc "Status")
  let position ← if status = some "OK" then do
      let p ← parseIntText (← textOf (result.findChild "Position"))
      pure (some p)
    else pure (none : Option Int)
  let total_time ← parseIntText (← textOf (result.findDesc "Time"))
  let splits ← compute_split_information person_result
  return { name := name, club := club, status := status, position := position,
           total_time := total_time, splits := splits }

/-- A `for` loop that builds a list, failing fast: Lean version of mapping a
fallible extraction over a list. -/
def mapE {α β : Type} (f : α → Except PyErr β) : List α → Except PyErr (List β)
  | [] => .ok []
  | x :: xs => do
    let y ← f x
    let ys ← mapE f xs
    return y :: ys

/-- `_extract_result_list`: every `PersonResult` descendant, in document
order, through `extract_person_result`. -/
def extract_result_list (root : Elem) : Except PyErr (List PersonDict) :=
  mapE extract_person_result (root.findallDesc "PersonResult")

/-- The `best_split_times` Python dict: association list keyed by the
(possibly `None`) control code, insertion ordered. -/
abbrev Dict : Type := List (Option String × Int)

/-- Python `d[k]` as an optional lookup (`none` models `KeyError`). -/
def dictGet : Dict → Option String → Option Int
  | [], _ => none
  | (k', v) :: rest, k => if k' = k then some v else dictGet rest k

/-- Python `d[k] = v`: replace in place, else append. -/
def dictSet : Dict → Option String → Int → Dict
  | [], k, v => [(k, v)]
  | (k', v') :: rest, k, v =>
    if k' = k then (k, v) :: rest else (k', v') :: dictSet rest k v

/-- One iteration of the loop in `_compute_best_split_times`. -/
def bestStep (best : Dict) (split : Split0) : Dict :=
  match split.split_time with
  | none => best
  | some split_time =>
    match dictGet best split.control_code with
    | none => dictSet best split.control_code split_time
    | some b => if split_time < b then dictSet best split.control_code split_time
      else best

/-- The nested person/split loops of the best-time pass iterate all splits of
all persons in order. -/
def allSplits (result_list : List PersonDict) : List Split0 :=
  result_list.flatMap (fun p => p.splits)

/-- `_compute_best_split_times`: minimum present `split_time` per control. -/
def compute_best_split_times (result_list : List PersonDict) : Dict :=
  (allSplits result_list).foldl bestStep []

/-- The body of the inner loop of `_add_split_analysis` on one split: the
dict lookup happens before the `split_time is None` test, and the percentage
division raises when the best time is `0`. -/
def annotateSplit (best_split_times : Dict) (split : Split0) :
    Except PyErr SplitFull := do
  match dictGet best_split_times split.control_code with
  | none => .error .keyError
  | some best_split_time =>
    match split.split_time with
    | none =>
      .ok { control_code := split.control_code, time := split.time,
            split_time := split.split_time, split_gap := none, percentage_gap := none }
    | some split_time =>
      let split_gap := split_time - best_split_time
      if best_split_time = 0 then .error .zeroDivisionError
      else
        .ok { control_code := split.control_code, time := split.time,
              split_time := split.split_time, split_gap := some split_gap,
              percentage_gap := some (((split_gap : ℚ) / (best_split_time : ℚ)) * 100) }

/-- The outer loop body of `_add_split_analysis` for one person: annotate
each of the person's splits in order. -/
def annotatePerson (best_split_times : Dict) (p : PersonDict) :
    Except PyErr PersonFull := do
  let ss ← mapE (annotateSplit best_split_times) p.splits
  return { name := p.name, club := p.club, status := p.status,
           position := p.position, total_time := p.total_time, splits := ss }

/-- `_add_split_analysis`: annotate every split of every person (the Python
mutates in place; here the annotated list is rebuilt). -/
def add_split_analysis (result_list : List PersonDict) (best_split_times : Dict) :
    Except PyErr (List PersonFull) :=
  mapE (annotatePerson best_split_times) result_list

/-- `process_xml` after XML parsing: extract event data and the result list,
compute best split times, annotate, and read `winning_time` off the first
entry of the (annotated-in-place) result list. -/
def process_xml (root : Elem) : Except PyErr Report := do
  let event_data ← extract_event_data root
  let result_list ← extract_result_list root
  let best_split_times := compute_best_split_times result_list
  let results ← add_split_analysis result_list best_split_times
  match results with
  | [] => .error .indexError
  | first :: _ =>
    return { event_data := event_data, results := results,
             winning_time := first.total_time }

instance exceptDecEq {ε α : Type} [DecidableEq ε] [DecidableEq α] :
    DecidableEq (Except ε α)
  | .error e, .error e' =>
    if h : e = e' then .isTrue (by rw [h]) else .isFalse (by simp [h])
  | .error _, .ok _ => .isFalse (by simp)
  | .ok _, .error _ => .isFalse (by simp)
  | .ok a, .ok a' =>
    if h : a = a' then .isTrue (by rw [h]) else .isFalse (by simp [h])

/-! ## Concrete example documents used by witnesses -/

/-- An element with only a text node. -/
def leafE (t s : String) : Elem := .mk t [] (some s) []

/-- An element with only children. -/
def nodeE (t : String) (cs : List Elem) : Elem := .mk t [] none cs

/-- A recorded `SplitTime` element. -/
def splitE (code time : String) : Elem :=
  nodeE "SplitTime" [leafE "ControlCode" code, leafE "Time" time]

/-- A `SplitTime` element with attribute `status="Missing"` and no `Time`. -/
def missingSplitE (code : String) : Elem :=
  .mk "SplitTime" [("status", "Missing")] none [leafE "ControlCode" code]

/-- A complete `PersonResult` element. -/
def personE (given family club status : String) (pos : Option String)
    (total : String) (ss : List Elem) : Elem :=
  nodeE "PersonResult"
    [nodeE "Person" [nodeE "Name" [leafE "Family" family, leafE "Given" given]],
     nodeE "Organisation" [leafE "Name" club],
     nodeE "Result"
       ([leafE "Status" status]
         ++ (match pos with | some p => [leafE "Position" p] | none => [])
         ++ [leafE "Time" total] ++ ss)]

/-- A complete two-competitor document; the first finisher in document order
is slower (total 300) than the second (total 200). -/
def exDoc1 : Elem :=
  nodeE "ResultList"
    [nodeE "Event" [leafE "Name" "Spring Cup", leafE "Date" "2024-04-01"],
     nodeE "ClassResult"
       [leafE "Name" "Men Elite",
        personE "Anna" "Berg" "OK Linne" "OK" (some "1") "300" [splitE "31" "100"],
        personE "Carl" "Dahl" "IFK Mora" "OK" (some "2") "200" [splitE "31" "50"]]]

/-- The report produced from `exDoc1`. -/
def exReport1 : Report :=
  { event_data := { name := some "Spring Cup", class_name := some "Men Elite",
                    date := some "2024-04-01" },
    results :=
      [{ name := "Anna Berg", club := some "OK Linne", status := some "OK",
         position := some 1, total_time := 300,
         splits := [{ control_code := some "31", time := some 100,
                      split_time := some 100, split_gap := some 50,
                      percentage_gap := some 100 }] },
       { name := "Carl Dahl", club := some "IFK Mora", status := some "OK",
         position := some 2, total_time := 200,
         splits := [{ control_code := some "31", time := some 50,
                      split_time := some 50, split_gap := some 0,
                      percentage_gap := some 0 }] }],
    winning_time := 300 }

/-- A document with event metadata but no `PersonResult` at all. -/
def exDocEmpty : Elem :=
  nodeE "ResultList"
    [nodeE "Event" [leafE "Name" "Spring Cup", leafE "Date" "2024-04-01"],
     nodeE "ClassResult" [leafE "Name" "Men Elite"]]

/-- A document whose `Event/Name` element is present but has no text node. -/
def exDocNoText : Elem :=
  nodeE "ResultList"
    [nodeE "Event" [nodeE "Name" [], leafE "Date" "2024-04-01"],
     nodeE "ClassResult"
       [leafE "Name" "Men Elite",
        personE "Anna" "Berg" "OK Linne" "OK" (some "1") "300" [splitE "31" "100"]]]

/-- The report produced from `exDocNoText`: the absent text flows through. -/
def exRepNoText : Report :=
  { event_data := { name := none, class_name := some "Men Elite",
                    date := some "2024-04-01" },
    results :=
      [{ name := "Anna Berg", club := some "OK Linne", status := some "OK",
         position := some 1, total_time := 300,
         splits := [{ control_code := some "31", time := some 100,
                      split_time := some 100, split_gap := some 0,
                      percentage_gap := some 0 }] }],
    winning_time := 300 }

/-- A `PersonResult` element with no `Organisation` sub-element. -/
def badPersonE : Elem :=
  nodeE "PersonResult"
    [nodeE "Person" [nodeE "Name" [leafE "Family" "Berg", leafE "Given" "Anna"]],
     nodeE "Result" [leafE "Status" "OK", leafE "Position" "1", leafE "Time" "300",
       splitE "31" "100"]]

/-- A document containing one malformed competitor entry. -/
def exDocBadPerson : Elem :=
  nodeE "ResultList"
    [nodeE "Event" [leafE "Name" "Spring Cup", leafE "Date" "2024-04-01"],
     nodeE "ClassResult" [leafE "Name" "Men Elite", badPersonE]]

/-- One competitor whose only split has an absent split time, at a control
where no competitor has a present split time. -/
def exRL2 : List PersonDict :=
  [{ name := "Eva Lund", club := some "Tiomila", status := some "MissingPunch",
     position := none, total_time := 500,
     splits := [{ control_code := some "31", time := none, split_time := none }] }]

/-- One competitor whose only split has split time exactly `0`. -/
def exRL6 : List PersonDict :=
  [{ name := "Eva Lund", club := some "Tiomila", status := some "OK",
     position := some 1, total_time := 500,
     splits := [{ control_code := some "31", time := some 0, split_time := some 0 }] }]

/-- Two competitors: split times 100 and 150 at control `31`, and an extra
record at control `99` with an absent split time for the first one. -/
def exRL4 : List PersonDict :=
  [{ name := "Anna Berg", club := some "OK Linne", status := some "OK",
     position := some 1, total_time := 300,
     splits := [{ control_code := some "31", time := some 100, split_time := some 100 },
                { control_code := some "99", time := none, split_time := none }] },
   { name := "Carl Dahl", club := some "IFK Mora", status := some "OK",
     position := some 2, total_time := 200,
     splits := [{ control_code := some "31", time := some 150, split_time := some 150 }] }]

/-- Two competitors with all splits present at control `31`. -/
def exRL5 : List PersonDict :=
  [{ name := "Anna Berg", club := some "OK Linne", status := some "OK",
     position := some 1, total_time := 300,
     splits := [{ control_code := some "31", time := some 100, split_time := some 100 }] },
   { name := "Carl Dahl", club := some "IFK Mora", status := some "OK",
     position := some 2, total_time := 200,
     splits := [{ control_code := some "31", time := some 150, split_time := some 150 }] }]

/-- The annotated result of `exRL5`. -/
def exRL5' : List PersonFull :=
  [{ name := "Anna Berg", club := some "OK Linne", status := some "OK",
     position := some 1, total_time := 300,
     splits := [{ control_code := some "31", time := some 100,
                  split_time := some 100, split_gap := some 0,
                  percentage_gap := some 0 }] },
   { name := "Carl Dahl", club := some "IFK Mora", status := some "OK",
     position := some 2, total_time := 200,
     splits := [{ control_code := some "31", time := some 150,
                  split_time := some 150, split_gap := some 50,
                  percentage_gap := some 50 }] }]

/-- A competitor element with status `"DSQ"` but a `Position` element. -/
def exPersonDsqE : Elem :=
  personE "Anna" "Berg" "OK Linne" "DSQ" (some "1") "300" [splitE "31" "100"]

/-- The extraction of `exPersonDsqE`: position absent despite the document
value. -/
def exPersonDsq : PersonDict :=
  { name := "Anna Berg", club := some "OK Linne", status := some "DSQ",
    position := none, total_time := 300,
    splits := [⟨some "31", some 100, some 100⟩] }

/-! ## Helper lemmas -/

@[simp] theorem exceptBind_ok {ε α β : Type} (a : α) (f : α → Except ε β) :
    ((Except.ok a : Except ε α) >>= f) = f a := rfl

@[simp] theorem exceptBind_error {ε α β : Type} (e : ε) (f : α → Except ε β) :
    ((Except.error e : Except ε α) >>= f) = Except.error e := rfl

@[simp] theorem exceptMap_ok {ε α β : Type} (g : α → β) (a : α) :
    (g <$> (Except.ok a : Except ε α)) = Except.ok (g a) := rfl

@[simp] theorem exceptMap_error {ε α β : Type} (g : α → β) (e : ε) :
    (g <$> (Except.error e : Except ε α)) = (Except.error e : Except ε β) := rfl

@[simp] theorem exceptPure_def {ε α : Type} (a : α) :
    (pure a : Except ε α) = Except.ok a := rfl

theorem mapE_forall₂ {α β : Type} (f : α → Except PyErr β) :
    ∀ (l : List α) (l' : List β), mapE f l = .ok l' →
      List.Forall₂ (fun x y => f x = .ok y) l l' := by
  intro l
  induction l with
  | nil =>
    intro l' h
    simp only [mapE] at h
    cases h
    exact List.Forall₂.nil
  | cons x xs ih =>
    intro l' h
    simp only [mapE] at h
    cases hfx : f x with
    | error e => rw [hfx] at h; simp at h
    | ok y =>
      rw [hfx] at h
      cases hxs : mapE f xs with
      | error e => rw [hxs] at h; simp at h
      | ok ys =>
        rw [hxs] at h
        simp only [exceptBind_ok, exceptMap_ok] at h
        cases h
        exact List.Forall₂.cons hfx (ih ys hxs)

theorem forall₂_mem_left {α β : Type} {R : α → β → Prop} {l : List α}
    {l' : List β} (h : List.Forall₂ R l l') :
    ∀ x ∈ l, ∃ y ∈ l', R x y := by
  induction h with
  | nil => intro x hx; cases hx
  | cons hR _ ih =>
    intro x hx
    rcases List.mem_cons.mp hx with hx | hx
    · exact ⟨_, List.mem_cons_self _ _, hx ▸ hR⟩
    · obtain ⟨y, hy, hxy⟩ := ih x hx
      exact ⟨y, List.mem_cons_of_mem _ hy, hxy⟩

theorem forall₂_mem_right {α β : Type} {R : α → β → Prop} {l : List α}
    {l' : List β} (h : List.Forall₂ R l l') :
    ∀ y ∈ l', ∃ x ∈ l, R x y := by
  induction h with
  | nil => intro y hy; cases hy
  | cons hR _ ih =>
    intro y hy
    rcases List.mem_cons.mp hy with hy | hy
    · exact ⟨_, List.mem_cons_self _ _, hy ▸ hR⟩
    · obtain ⟨x, hx, hxy⟩ := ih y hy
      exact ⟨x, List.mem_cons_of_mem _ hx, hxy⟩

theorem mapE_mem_ok {α β : Type} (f : α → Except PyErr β) (l : List α)
    (l' : List β) (h : mapE f l = .ok l') :
    ∀ x ∈ l, ∃ y ∈ l', f x = .ok y :=
  forall₂_mem_left (mapE_forall₂ f l l' h)

theorem mapE_mem_ok_rev {α β : Type} (f : α → Except PyErr β) (l : List α)
    (l' : List β) (h : mapE f l = .ok l') :
    ∀ y ∈ l', ∃ x ∈ l, f x = .ok y :=
  forall₂_mem_right (mapE_forall₂ f l l' h)

theorem mapE_error_of_mem {α β : Type} (f : α → Except PyErr β) (l : List α)
    (x : α) (hx : x ∈ l) (hfx : ∀ y, f x ≠ .ok y) :
    ∃ e, mapE f l = .error e := by
  cases h : mapE f l with
  | error e => exact ⟨e, rfl⟩
  | ok l' =>
    obtain ⟨y, _, hy⟩ := mapE_mem_ok f l l' h x hx
    exact absurd hy (hfx y)

theorem dictGet_dictSet (d : Dict) (k k' : Option String) (v : Int) :
    dictGet (dictSet d k v) k' = if k = k' then some v else dictGet d k' := by
  induction d with
  | nil => simp [dictSet, dictGet]
  | cons hd tl ih =>
    obtain ⟨k0, v0⟩ := hd
    by_cases h0 : k0 = k
    · subst h0
      simp only [dictSet, if_pos rfl, dictGet]
      split <;> rfl
    · simp only [dictSet, if_neg h0, dictGet, ih]
      by_cases h1 : k0 = k'
      · subst h1
        have : ¬ k = k0 := fun h => h0 h.symm
        simp [this]
      · simp [h1]

/-- The invariant of the `_compute_best_split_times` fold: starting the loop
from any dict `d`, the final value at each control is a lower bound of the
initial value and of every present split time at that control seen in the
loop; it is achieved either by the initial dict or by one of the splits; and
a control is absent at the end only if it was absent initially and no split
of the loop had a present split time there. -/
theorem foldl_bestStep_spec (l : List Split0) :
    ∀ (d : Dict) (c : Option String),
      (∀ v, dictGet (l.foldl bestStep d) c = some v →
        (∀ w, dictGet d c = some w → v ≤ w) ∧
        (∀ s ∈ l, s.control_code = c → ∀ st, s.split_time = some st → v ≤ st) ∧
        (dictGet d c = some v ∨ ∃ s ∈ l, s.control_code = c ∧ s.split_time = some v)) ∧
      (dictGet (l.foldl bestStep d) c = none →
        dictGet d c = none ∧ ∀ s ∈ l, s.control_code = c → s.split_time = none) := by
  induction l with
  | nil =>
    intro d c
    simp only [List.foldl_nil]
    refine ⟨fun v h => ⟨fun w hw => ?_, fun s hs => absurd hs (List.not_mem_nil s), .inl h⟩,
      fun h => ⟨h, fun s hs => absurd hs (List.not_mem_nil s)⟩⟩
    exact le_of_eq (Option.some.inj (h.symm.trans hw))
  | cons s l ih =>
    intro d c
    have hfold : (s :: l).foldl bestStep d = l.foldl bestStep (bestStep d s) := rfl
    obtain ⟨ih1, ih2⟩ := ih (bestStep d s) c
    constructor
    · intro v h
      rw [hfold] at h
      obtain ⟨hmin, hmem, hsrc⟩ := ih1 v h
      cases hst : s.split_time with
      | none =>
        have hb : bestStep d s = d := by simp [bestStep, hst]
        rw [hb] at hmin hsrc
        refine ⟨hmin, ?_, ?_⟩
        · intro s' hs' hc st hstt
          rcases List.mem_cons.mp hs' with hs' | hs'
          · rw [hs', hst] at hstt; cases hstt
          · exact hmem s' hs' hc st hstt
        · rcases hsrc with h' | ⟨s', hs', hc, hv⟩
          · exact .inl h'
          · exact .inr ⟨s', List.mem_cons_of_mem _ hs', hc, hv⟩
      | some st0 =>
        by_cases hcs : s.control_code = c
        · cases hg : dictGet d c with
          | none =>
            have hb : bestStep d s = dictSet d c st0 := by
              simp only [bestStep, hst, hcs, hg]
            have hget : dictGet (bestStep d s) c = some st0 := by
              rw [hb, dictGet_dictSet, if_pos rfl]
            have hvst0 : v ≤ st0 := hmin st0 hget
            refine ⟨fun w hw => ?_, ?_, ?_⟩
            · exact absurd hw (fun hno => Option.noConfusion hno)
            · intro s' hs' hc' st hstt
              rcases List.mem_cons.mp hs' with hs' | hs'
              · rw [hs', hst] at hstt
                cases hstt
                exact hvst0
              · exact hmem s' hs' hc' st hstt
            · rcases hsrc with h' | ⟨s', hs', hc', hv⟩
              · have hveq : st0 = v := Option.some.inj (hget.symm.trans h')
                exact .inr ⟨s, List.mem_cons_self _ _, hcs, hveq ▸ hst⟩
              · exact .inr ⟨s', List.mem_cons_of_mem _ hs', hc', hv⟩
          | some b =>
            by_cases hlt : st0 < b
            · have hb : bestStep d s = dictSet d c st0 := by
                simp only [bestStep, hst, hcs, hg, if_pos hlt]
              have hget : dictGet (bestStep d s) c = some st0 := by
                rw [hb, dictGet_dictSet, if_pos rfl]
              have hvst0 : v ≤ st0 := hmin st0 hget
              refine ⟨fun w hw => ?_, ?_, ?_⟩
              · have hbw : b = w := Option.some.inj hw
                omega
              · intro s' hs' hc' st hstt
                rcases List.mem_cons.mp hs' with hs' | hs'
                · rw [hs', hst] at hstt
                  cases hstt
                  exact hvst0
                · exact hmem s' hs' hc' st hstt
              · rcases hsrc with h' | ⟨s', hs', hc', hv⟩
                · have hveq : st0 = v := Option.some.inj (hget.symm.trans h')
                  exact .inr ⟨s, List.mem_cons_self _ _, hcs, hveq ▸ hst⟩
                · exact .inr ⟨s', List.mem_cons_of_mem _ hs', hc', hv⟩
            · have hb : bestStep d s = d := by
                simp only [bestStep, hst, hcs, hg, if_neg hlt]
              rw [hb] at hmin hsrc
              have hvb : v ≤ b := hmin b hg
              refine ⟨fun w hw => ?_, ?_, ?_⟩
              · have hbw : b = w := Option.some.inj hw
                omega
              · intro s' hs' hc' st hstt
                rcases List.mem_cons.mp hs' with hs' | hs'
                · rw [hs', hst] at hstt
                  cases hstt
                  omega
                · exact hmem s' hs' hc' st hstt
              · rcases hsrc with h' | ⟨s', hs', hc', hv⟩
                · exact .inl (hg.symm.trans h')
                · exact .inr ⟨s', List.mem_cons_of_mem _ hs', hc', hv⟩
        · have hb : dictGet (bestStep d s) c = dictGet d c := by
            cases hdg : dictGet d s.control_code with
            | none => simp only [bestStep, hst, hdg, dictGet_dictSet, if_neg hcs]
            | some b =>
              by_cases hlt : st0 < b
              · simp only [bestStep, hst, hdg, if_pos hlt, dictGet_dictSet, if_neg hcs]
              · simp only [bestStep, hst, hdg, if_neg hlt]
          rw [hb] at hmin hsrc
          refine ⟨hmin, ?_, ?_⟩
          · intro s' hs' hc' st hstt
            rcases List.mem_cons.mp hs' with hs' | hs'
            · rw [hs'] at hc'; exact absurd hc' hcs
            · exact hmem s' hs' hc' st hstt
          · rcases hsrc with h' | ⟨s', hs', hc', hv⟩
            · exact .inl h'
            · exact .inr ⟨s', List.mem_cons_of_mem _ hs', hc', hv⟩
    · intro h
      rw [hfold] at h
      obtain ⟨hd', hl'⟩ := ih2 h
      have hsnone : s.control_code = c → s.split_time = none := by
        intro hcs
        cases hst : s.split_time with
        | none => rfl
        | some st0 =>
          exfalso
          cases hg : dictGet d c with
          | none =>
            have hb : bestStep d s = dictSet d c st0 := by
              simp only [bestStep, hst, hcs, hg]
            rw [hb, dictGet_dictSet, if_pos rfl] at hd'
            cases hd'
          | some b =>
            by_cases hlt : st0 < b
            · have hb : bestStep d s = dictSet d c st0 := by
                simp only [bestStep, hst, hcs, hg, if_pos hlt]
              rw [hb, dictGet_dictSet, if_pos rfl] at hd'
              cases hd'
            · have hb : bestStep d s = d := by
                simp only [bestStep, hst, hcs, hg, if_neg hlt]
              rw [hb, hg] at hd'
              cases hd'
      constructor
      · cases hst : s.split_time with
        | none =>
          have hb : bestStep d s = d := by simp [bestStep, hst]
          rw [hb] at hd'
          exact hd'
        | some st0 =>
          by_cases hcs : s.control_code = c
          · rw [hsnone hcs] at hst; cases hst
          · have hb : dictGet (bestStep d s) c = dictGet d c := by
              cases hdg : dictGet d s.control_code with
              | none => simp only [bestStep, hst, hdg, dictGet_dictSet, if_neg hcs]
              | some b =>
                by_cases hlt : st0 < b
                · simp only [bestStep, hst, hdg, if_pos hlt, dictGet_dictSet, if_neg hcs]
                · simp only [bestStep, hst, hdg, if_neg hlt]
            rw [hb] at hd'
            exact hd'
      · intro s' hs' hc'
        rcases List.mem_cons.mp hs' with hs' | hs'
        · rw [hs']
          exact hsnone (hs' ▸ hc')
        · exact hl' s' hs' hc'

theorem annotateSplit_keyError {best : Dict} {s : Split0}
    (hg : dictGet best s.control_code = none) :
    annotateSplit best s = .error .keyError := by
  simp [annotateSplit, hg]

theorem annotateSplit_zeroDiv {best : Dict} {s : Split0} {st : Int}
    (hg : dictGet best s.control_code = some 0) (hst : s.split_time = some st) :
    annotateSplit best s = .error .zeroDivisionError := by
  simp [annotateSplit, hg, hst]

theorem annotateSplit_absent_ok {best : Dict} {s : Split0} {b : Int}
    (hg : dictGet best s.control_code = some b) (hst : s.split_time = none) :
    annotateSplit best s = .ok ⟨s.control_code, s.time, none, none, none⟩ := by
  simp [annotateSplit, hg, hst]

theorem annotateSplit_ok_fields {best : Dict} {s : Split0} {s' : SplitFull}
    (h : annotateSplit best s = Except.ok s') :
    s'.control_code = s.control_code ∧ s'.time = s.time ∧
    s'.split_time = s.split_time := by
  cases hg : dictGet best s.control_code with
  | none =>
    simp only [annotateSplit, hg] at h
    exact Except.noConfusion h
  | some b =>
    cases hst : s.split_time with
    | none =>
      simp only [annotateSplit, hg, hst] at h
      cases h
      exact ⟨rfl, rfl, rfl⟩
    | some st =>
      by_cases hb0 : b = 0
      · simp only [annotateSplit, hg, hst, if_pos hb0] at h
        exact Except.noConfusion h
      · simp only [annotateSplit, hg, hst, if_neg hb0] at h
        cases h
        exact ⟨rfl, rfl, rfl⟩

theorem annotateSplit_ok_gap {best : Dict} {s : Split0} {s' : SplitFull}
    {st : Int} (h : annotateSplit best s = Except.ok s')
    (hst : s.split_time = some st) :
    ∃ b, dictGet best s.control_code = some b ∧ b ≠ 0 ∧
      s'.split_gap = some (st - b) ∧
      s'.percentage_gap = some ((((st - b : Int) : ℚ) / (b : ℚ)) * 100) := by
  cases hg : dictGet best s.control_code with
  | none =>
    simp only [annotateSplit, hg] at h
    exact Except.noConfusion h
  | some b =>
    by_cases hb0 : b = 0
    · simp only [annotateSplit, hg, hst, if_pos hb0] at h
      exact Except.noConfusion h
    · simp only [annotateSplit, hg, hst, if_neg hb0] at h
      cases h
      exact ⟨b, rfl, hb0, rfl, rfl⟩

theorem annotatePerson_ok {best : Dict} {p : PersonDict} {p' : PersonFull}
    (h : annotatePerson best p = Except.ok p') :
    mapE (annotateSplit best) p.splits = .ok p'.splits ∧
    p'.name = p.name ∧ p'.club = p.club ∧ p'.status = p.status ∧
    p'.position = p.position ∧ p'.total_time = p.total_time := by
  cases hss : mapE (annotateSplit best) p.splits with
  | error e =>
    simp only [annotatePerson, hss, exceptBind_error] at h
    exact Except.noConfusion h
  | ok ss =>
    simp only [annotatePerson, hss, exceptBind_ok, exceptPure_def] at h
    cases h
    exact ⟨rfl, rfl, rfl, rfl, rfl, rfl⟩

theorem splitStep_ok {prev : Option Int} {se : Elem} {s : Split0}
    {nx : Option Int} (h : splitStep prev se = .ok (s, nx)) :
    nx = s.time ∧
    (prev = none → s.split_time = none) ∧
    (s.time = none → s.split_time = none) ∧
    (∀ p t, prev = some p → s.time = some t → s.split_time = some (t - p)) := by
  cases hcc : textOf (se.findChild "ControlCode") with
  | error e =>
    simp only [splitStep, hcc, exceptBind_error] at h
    exact Except.noConfusion h
  | ok cc =>
    by_cases hm : se.get "status" = some "Missing"
    · simp only [splitStep, hcc, hm, if_pos, exceptBind_ok, exceptPure_def] at h
      cases prev with
      | none =>
        cases h
        exact ⟨rfl, fun _ => rfl, fun _ => rfl, fun p t hp ht => Option.noConfusion ht⟩
      | some p0 =>
        cases h
        exact ⟨rfl, fun hc => Option.noConfusion hc, fun _ => rfl,
          fun p t hp ht => Option.noConfusion ht⟩
    · cases htt : textOf (se.findChild "Time") with
      | error e =>
        simp only [splitStep, hcc, hm, if_neg hm, htt, exceptBind_error,
          exceptBind_ok] at h
        exact Except.noConfusion h
      | ok tt =>
        cases hpt : parseIntText tt with
        | error e =>
          simp only [splitStep, hcc, hm, if_neg hm, htt, hpt, exceptBind_error,
            exceptBind_ok] at h
          exact Except.noConfusion h
        | ok t0 =>
          simp only [splitStep, hcc, hm, if_neg hm, htt, hpt, exceptBind_ok,
            exceptPure_def] at h
          cases prev with
          | none =>
            cases h
            exact ⟨rfl, fun _ => rfl, fun hc => Option.noConfusion hc,
              fun p t hp ht => Option.noConfusion hp⟩
          | some p0 =>
            cases h
            refine ⟨rfl, fun hc => Option.noConfusion hc,
              fun hc => Option.noConfusion hc, fun p t hp ht => ?_⟩
            cases hp
            cases ht
            rfl

theorem splitStep_missing {prev : Option Int} {se : Elem} {s : Split0}
    {nx : Option Int} (hm : se.get "status" = some "Missing")
    (h : splitStep prev se = .ok (s, nx)) : s.time = none := by
  cases hcc : textOf (se.findChild "ControlCode") with
  | error e =>
    simp only [splitStep, hcc, exceptBind_error] at h
    exact Except.noConfusion h
  | ok cc =>
    simp only [splitStep, hcc, hm, if_pos, exceptBind_ok, exceptPure_def] at h
    cases prev with
    | none => cases h; rfl
    | some p0 => cases h; rfl

theorem splitsGo_cons_ok {prev : Option Int} {se : Elem} {ses : List Elem}
    {out : List Split0} (h : splitsGo prev (se :: ses) = .ok out) :
    ∃ s nx rest, splitStep prev se = .ok (s, nx) ∧
      splitsGo nx ses = .ok rest ∧ out = s :: rest := by
  cases hs : splitStep prev se with
  | error e =>
    simp only [splitsGo, hs, exceptBind_error] at h
    exact Except.noConfusion h
  | ok pair =>
    obtain ⟨s, nx⟩ := pair
    cases hr : splitsGo nx ses with
    | error e =>
      simp only [splitsGo, hs, hr, exceptBind_error, exceptBind_ok] at h
      exact Except.noConfusion h
    | ok rest =>
      simp only [splitsGo, hs, hr, exceptBind_ok, exceptPure_def] at h
      cases h
      exact ⟨s, nx, rest, rfl, hr, rfl⟩

theorem process_xml_ok_parts {root : Elem} {rep : Report}
    (h : process_xml root = Except.ok rep) :
    ∃ ed rl first rest,
      extract_event_data root = .ok ed ∧
      extract_result_list root = .ok rl ∧
      add_split_analysis rl (compute_best_split_times rl) = .ok (first :: rest) ∧
      rep = ⟨ed, first :: rest, first.total_time⟩ := by
  cases hed : extract_event_data root with
  | error e =>
    simp only [process_xml, hed, exceptBind_error] at h
    exact Except.noConfusion h
  | ok ed =>
    cases hrl : extract_result_list root with
    | error e =>
      simp only [process_xml, hed, hrl, exceptBind_error, exceptBind_ok] at h
      exact Except.noConfusion h
    | ok rl =>
      cases han : add_split_analysis rl (compute_best_split_times rl) with
      | error e =>
        simp only [process_xml, hed, hrl, han, exceptBind_error, exceptBind_ok] at h
        exact Except.noConfusion h
      | ok results =>
        cases results with
        | nil =>
          simp only [process_xml, hed, hrl, han, exceptBind_ok] at h
          exact Except.noConfusion h
        | cons first rest =>
          simp only [process_xml, hed, hrl, han, exceptBind_ok,
            exceptPure_def] at h
          cases h
          exact ⟨ed, rl, first, rest, rfl, rfl, han, rfl⟩

/-! ## Claims -/

/-- C1: for every document whose processing succeeds, the report's
`winning_time` equals the `total_time` of the first CompetitorResult in
document order (`results[0].total_time`); no minimum is computed. -/
theorem winning_time_first_in_document_order (root : Elem) (rep : Report)
    (h : process_xml root = Except.ok rep) :
    (rep.results.head?).map PersonFull.total_time = some rep.winning_time := by
  obtain ⟨ed, rl, first, rest, _, _, _, hrep⟩ := process_xml_ok_parts h
  subst hrep
  rfl

/-- Witness for C1: `exDoc1` processes successfully; its `winning_time` is
the first competitor's 300 even though the second competitor finished
in 200. -/
theorem winning_time_first_in_document_order_witness :
    process_xml exDoc1 = Except.ok exReport1 ∧
    (exReport1.results.head?).map PersonFull.total_time =
      some exReport1.winning_time ∧
    (∃ p ∈ exReport1.results, p.total_time < exReport1.winning_time) :=
  ⟨by with_unfolding_all decide,
   winning_time_first_in_document_order exDoc1 exReport1
     (by with_unfolding_all decide),
   by with_unfolding_all decide⟩

/-- C10: a well-formed document with the required `Event` and `ClassResult`
metadata but no `PersonResult` element makes `process_xml` raise an error
(indexing the empty result list) rather than return a report. -/
theorem empty_result_list_index_error (root : Elem) (ed : EventData)
    (hed : extract_event_data root = .ok ed)
    (hnp : root.findallDesc "PersonResult" = []) :
    process_xml root = .error .indexError := by
  have hrl : extract_result_list root = .ok [] := by
    simp only [extract_result_list, hnp, mapE]
  simp only [process_xml, hed, hrl, exceptBind_ok]
  rfl

/-- Witness for C10: `exDocEmpty` has the metadata, no `PersonResult`, and
processing fails with the index error. -/
theorem empty_result_list_index_error_witness :
    extract_event_data exDocEmpty =
      .ok ⟨some "Spring Cup", some "Men Elite", some "2024-04-01"⟩ ∧
    Elem.findallDesc "PersonResult" exDocEmpty = [] ∧
    process_xml exDocEmpty = .error .indexError :=
  ⟨by decide, rfl,
   empty_result_list_index_error exDocEmpty
     ⟨some "Spring Cup", some "Men Elite", some "2024-04-01"⟩ (by decide) rfl⟩

/-- C5: every value recorded in the best-split-times mapping is less than or
equal to every present split time of every competitor at that control and is
achieved by at least one of them; a control with no present split time among
any competitor is absent from the mapping. -/
theorem best_split_times_achieved_minimum (rl : List PersonDict)
    (c : Option String) :
    (∀ v, dictGet (compute_best_split_times rl) c = some v →
      (∀ p ∈ rl, ∀ s ∈ p.splits, s.control_code = c →
        ∀ st, s.split_time = some st → v ≤ st) ∧
      (∃ p ∈ rl, ∃ s ∈ p.splits, s.control_code = c ∧ s.split_time = some v)) ∧
    ((∀ p ∈ rl, ∀ s ∈ p.splits, s.control_code = c → s.split_time = none) →
      dictGet (compute_best_split_times rl) c = none) := by
  constructor
  · intro v h
    obtain ⟨_, hmem, hsrc⟩ := (foldl_bestStep_spec (allSplits rl) [] c).1 v h
    constructor
    · intro p hp s hs hcc st hst
      exact hmem s (List.mem_flatMap.mpr ⟨p, hp, hs⟩) hcc st hst
    · rcases hsrc with h0 | ⟨s, hsmem, hcc, hsv⟩
      · exact absurd h0 (fun h0 => Option.noConfusion h0)
      · obtain ⟨p, hp, hs⟩ := List.mem_flatMap.mp hsmem
        exact ⟨p, hp, s, hs, hcc, hsv⟩
  · intro hall
    cases hq : dictGet (compute_best_split_times rl) c with
    | none => rfl
    | some v =>
      exfalso
      obtain ⟨_, _, hsrc⟩ := (foldl_bestStep_spec (allSplits rl) [] c).1 v hq
      rcases hsrc with h0 | ⟨s, hsmem, hcc, hsv⟩
      · exact Option.noConfusion h0
      · obtain ⟨p, hp, hs⟩ := List.mem_flatMap.mp hsmem
        rw [hall p hp s hs hcc] at hsv
        exact Option.noConfusion hsv

/-- Witness for C5: in `exRL4` the best time at control `31` is 100,
which bounds both 100 and 150 and is achieved; control `99`, where the only
record has an absent split time, is absent from the mapping. -/
theorem best_split_times_achieved_minimum_witness :
    dictGet (compute_best_split_times exRL4) (some "31") = some 100 ∧
    (∀ p ∈ exRL4, ∀ s ∈ p.splits, s.control_code = some "31" →
      ∀ st, s.split_time = some st → 100 ≤ st) ∧
    (∃ p ∈ exRL4, ∃ s ∈ p.splits, s.control_code = some "31" ∧
      s.split_time = some 100) ∧
    dictGet (compute_best_split_times exRL4) (some "99") = none :=
  ⟨by decide,
   ((best_split_times_achieved_minimum exRL4 (some "31")).1 100 (by decide)).1,
   ((best_split_times_achieved_minimum exRL4 (some "31")).1 100 (by decide)).2,
   (best_split_times_achieved_minimum exRL4 (some "99")).2 (by decide)⟩

/-- C6: after a successful annotation pass run against the best-split-times
mapping computed from the same result list, every annotated split with a
present split time has `split_gap = split_time - best` with `best` the
mapping's value at its control, and the gap is nonnegative. -/
theorem split_gap_formula_nonneg (rl : List PersonDict) (rl' : List PersonFull)
    (p' : PersonFull) (s' : SplitFull) (st : Int)
    (h : add_split_analysis rl (compute_best_split_times rl) = .ok rl')
    (hp' : p' ∈ rl') (hs' : s' ∈ p'.splits) (hst : s'.split_time = some st) :
    ∃ b, dictGet (compute_best_split_times rl) s'.control_code = some b ∧
      s'.split_gap = some (st - b) ∧ 0 ≤ st - b := by
  obtain ⟨p, hp, hpok⟩ := mapE_mem_ok_rev _ rl rl' h p' hp'
  obtain ⟨hss, _, _, _, _, _⟩ := annotatePerson_ok hpok
  obtain ⟨s, hs, hsok⟩ := mapE_mem_ok_rev _ p.splits p'.splits hss s' hs'
  obtain ⟨hcc, _, hstime⟩ := annotateSplit_ok_fields hsok
  have hsplit : s.split_time = some st := hstime.symm.trans hst
  obtain ⟨b, hb, _, hgap, _⟩ := annotateSplit_ok_gap hsok hsplit
  obtain ⟨_, hminall, _⟩ :=
    (foldl_bestStep_spec (allSplits rl) [] s.control_code).1 b hb
  have hbst : b ≤ st :=
    hminall s (List.mem_flatMap.mpr ⟨p, hp, hs⟩) rfl st hsplit
  refine ⟨b, ?_, hgap, by omega⟩
  rw [hcc]
  exact hb

/-- Witness for C6: annotating `exRL5` succeeds, and the second competitor's
split at control `31` (split time 150, best 100) gets gap `50 ≥ 0`. -/
theorem split_gap_formula_nonneg_witness :
    add_split_analysis exRL5 (compute_best_split_times exRL5) = .ok exRL5' ∧
    ∃ b, dictGet (compute_best_split_times exRL5)
        (SplitFull.control_code ⟨some "31", some 150, some 150, some 50, some 50⟩) =
        some b ∧
      SplitFull.split_gap ⟨some "31", some 150, some 150, some 50, some 50⟩ =
        some (150 - b) ∧
      0 ≤ 150 - b :=
  ⟨by with_unfolding_all decide,
   split_gap_formula_nonneg exRL5 exRL5'
     { name := "Carl Dahl", club := some "IFK Mora", status := some "OK",
       position := some 2, total_time := 200,
       splits := [⟨some "31", some 150, some 150, some 50, some 50⟩] }
     ⟨some "31", some 150, some 150, some 50, some 50⟩ 150
     (by with_unfolding_all decide) (by decide) (by decide) (by decide)⟩

/-- C9: a successful annotation pass only adds the gap fields: every
person's name, club, status, position and total time, and every split's
control code, time and split time, are unchanged; and in a successful
`process_xml` run the event metadata is exactly what the extractor
produced, untouched by the annotation pass. -/
theorem annotation_frame_preserves_fields :
    (∀ (rl : List PersonDict) (best : Dict) (rl' : List PersonFull),
      add_split_analysis rl best = .ok rl' →
      List.Forall₂ (fun p p' =>
        PersonFull.name p' = p.name ∧ PersonFull.club p' = p.club ∧
        PersonFull.status p' = p.status ∧ PersonFull.position p' = p.position ∧
        PersonFull.total_time p' = p.total_time ∧
        List.Forall₂ (fun s s' =>
          SplitFull.control_code s' = s.control_code ∧
          SplitFull.time s' = s.time ∧ SplitFull.split_time s' = s.split_time)
          p.splits p'.splits) rl rl') ∧
    (∀ (root : Elem) (rep : Report), process_xml root = .ok rep →
      ∃ ed, extract_event_data root = .ok ed ∧ rep.event_data = ed) := by
  constructor
  · intro rl best rl' h
    refine (mapE_forall₂ _ rl rl' h).imp ?_
    intro p p' hpok
    obtain ⟨hss, hn, hc, hs, hpos, ht⟩ := annotatePerson_ok hpok
    refine ⟨hn, hc, hs, hpos, ht, ?_⟩
    refine (mapE_forall₂ _ p.splits p'.splits hss).imp ?_
    intro a b hab
    exact annotateSplit_ok_fields hab
  · intro root rep h
    obtain ⟨ed, rl, first, rest, hed, _, _, hrep⟩ := process_xml_ok_parts h
    exact ⟨ed, hed, by rw [hrep]⟩

/-- Witness for C9: the annotation of `exRL5` preserves all the listed
fields pointwise, and processing `exDoc1` keeps the extracted event
metadata in the report. -/
theorem annotation_frame_preserves_fields_witness :
    List.Forall₂ (fun p p' =>
      PersonFull.name p' = p.name ∧ PersonFull.club p' = p.club ∧
      PersonFull.status p' = p.status ∧ PersonFull.position p' = p.position ∧
      PersonFull.total_time p' = p.total_time ∧
      List.Forall₂ (fun s s' =>
        SplitFull.control_code s' = s.control_code ∧
        SplitFull.time s' = s.time ∧ SplitFull.split_time s' = s.split_time)
        p.splits p'.splits) exRL5 exRL5' ∧
    ∃ ed, extract_event_data exDoc1 = .ok ed ∧ exReport1.event_data = ed :=
  ⟨(annotation_frame_preserves_fields.1 exRL5 (compute_best_split_times exRL5)
      exRL5' (by with_unfolding_all decide)),
   (annotation_frame_preserves_fields.2 exDoc1 exReport1
      (by with_unfolding_all decide))⟩

/-- Counterexample to C2: in `exRL2` the only split record has an absent
split time at control `31`, no competitor has a present split time there, so
the control is absent from the best-split-times mapping — and the annotation
pass raises a key lookup error instead of completing with both fields set
absent: the dict lookup precedes the absent-split test. -/
theorem absent_split_missing_control_key_error :
    compute_best_split_times exRL2 = [] ∧
    add_split_analysis exRL2 (compute_best_split_times exRL2) =
      .error .keyError := by decide

/-- C2 (amended): a split record with an absent split time is annotated with
both fields absent only when its control is present in the best-split-times
mapping; when the control is absent from the mapping (no competitor has a
present split time there), the lookup — performed before the absent-split
test — raises a key error and the pass aborts. -/
theorem absent_split_time_behavior (best : Dict) (s : Split0)
    (hst : s.split_time = none) :
    (∀ b, dictGet best s.control_code = some b →
      annotateSplit best s = .ok ⟨s.control_code, s.time, none, none, none⟩) ∧
    (dictGet best s.control_code = none →
      annotateSplit best s = .error .keyError) :=
  ⟨fun _ hb => annotateSplit_absent_ok hb hst,
   fun hn => annotateSplit_keyError hn⟩

/-- Witness for C2 (amended): with best times `[(31, 100)]`, the absent
split at control `31` gets both fields absent; with an empty mapping the
same record raises the key error. -/
theorem absent_split_time_behavior_witness :
    annotateSplit [(some "31", 100)] ⟨some "31", none, none⟩ =
      .ok ⟨some "31", none, none, none, none⟩ ∧
    annotateSplit [] ⟨some "31", none, none⟩ = .error .keyError :=
  ⟨(absent_split_time_behavior [(some "31", 100)] ⟨some "31", none, none⟩
      rfl).1 100 (by decide),
   (absent_split_time_behavior [] ⟨some "31", none, none⟩ rfl).2 (by decide)⟩

/-- C3: a best split time of exactly `0` at a record's control makes the
annotation of any record with a present split time there raise the division
error, and the whole annotation pass aborts with an error; conversely if
every value in the mapping is nonzero, the percentage computation never
raises the division error. -/
theorem zero_best_split_division_error :
    (∀ (best : Dict) (s : Split0) (st : Int),
      dictGet best s.control_code = some 0 → s.split_time = some st →
      annotateSplit best s = .error .zeroDivisionError) ∧
    (∀ (rl : List PersonDict) (p : PersonDict) (s : Split0),
      p ∈ rl → s ∈ p.splits →
      dictGet (compute_best_split_times rl) s.control_code = some 0 →
      s.split_time.isSome →
      ∃ e, add_split_analysis rl (compute_best_split_times rl) = .error e) ∧
    (∀ best : Dict, (∀ c v, dictGet best c = some v → v ≠ 0) →
      ∀ s : Split0, annotateSplit best s ≠ .error .zeroDivisionError) := by
  refine ⟨fun best s st hg hst => annotateSplit_zeroDiv hg hst, ?_, ?_⟩
  · intro rl p s hp hs hzero hsome
    obtain ⟨st, hst⟩ := Option.isSome_iff_exists.mp hsome
    have herr := annotateSplit_zeroDiv hzero hst
    refine mapE_error_of_mem _ rl p hp ?_
    intro p' hpok
    obtain ⟨hss, _, _, _, _, _⟩ := annotatePerson_ok hpok
    obtain ⟨y, _, hy⟩ :=
      mapE_mem_ok _ p.splits p'.splits hss s hs
    rw [herr] at hy
    exact Except.noConfusion hy
  · intro best hnz s herr
    cases hg : dictGet best s.control_code with
    | none =>
      rw [annotateSplit_keyError hg] at herr
      exact PyErr.noConfusion (Except.error.inj herr)
    | some b =>
      cases hst : s.split_time with
      | none =>
        rw [annotateSplit_absent_ok hg hst] at herr
        exact Except.noConfusion herr
      | some st =>
        have hb0 : b ≠ 0 := hnz s.control_code b hg
        simp only [annotateSplit, hg, hst, if_neg hb0] at herr
        exact Except.noConfusion herr

/-- Witness for C3: with `exRL6` (a split time of `0` at control `31`) the
best time at `31` is `0`, the record's annotation raises the division error
and the whole pass aborts; with the nonzero mapping `[(31, 100)]` the same
record never raises the division error. -/
theorem zero_best_split_division_error_witness :
    annotateSplit (compute_best_split_times exRL6)
      ⟨some "31", some 0, some 0⟩ = .error .zeroDivisionError ∧
    (∃ e, add_split_analysis exRL6 (compute_best_split_times exRL6) =
      .error e) ∧
    annotateSplit [(some "31", 100)] ⟨some "31", some 0, some 0⟩ ≠
      .error .zeroDivisionError :=
  ⟨zero_best_split_division_error.1 (compute_best_split_times exRL6)
      ⟨some "31", some 0, some 0⟩ 0 (by decide) rfl,
   zero_best_split_division_error.2.1 exRL6
      { name := "Eva Lund", club := some "Tiomila", status := some "OK",
        position := some 1, total_time := 500,
        splits := [⟨some "31", some 0, some 0⟩] }
      ⟨some "31", some 0, some 0⟩ (by decide) (by decide) (by decide) rfl,
   zero_best_split_division_error.2.2 [(some "31", 100)]
      (fun c v h => by
        by_cases hc : (some "31" : Option String) = c
        · rw [dictGet, if_pos hc] at h
          have hv := Option.some.inj h
          omega
        · rw [dictGet, if_neg hc] at h
          exact absurd h (fun hno => Option.noConfusion hno))
      ⟨some "31", some 0, some 0⟩⟩

/-- C4: in the split loop, a punch with status `"Missing"` yields an absent
time and absent split time; the immediately following punch has an absent
split time even when its own time is present; and when that following
punch's time is present, the punch after it resumes normal subtraction. -/
theorem missing_punch_poisons_next_split (prev : Option Int) (m f g : Elem)
    (rest : List Elem) (out : List Split0)
    (hm : m.get "status" = some "Missing")
    (h : splitsGo prev (m :: f :: g :: rest) = .ok out) :
    ∃ rm rf rg out', out = rm :: rf :: rg :: out' ∧
      rm.time = none ∧ rm.split_time = none ∧ rf.split_time = none ∧
      (∀ tf tg, rf.time = some tf → rg.time = some tg →
        rg.split_time = some (tg - tf)) := by
  obtain ⟨rm, nx1, out1, hstep1, hrest1, hout⟩ := splitsGo_cons_ok h
  have hmt : rm.time = none := splitStep_missing hm hstep1
  obtain ⟨hnx1, _, htnone1, _⟩ := splitStep_ok hstep1
  obtain ⟨rf, nx2, out2, hstep2, hrest2, hout1⟩ := splitsGo_cons_ok hrest1
  obtain ⟨hnx2, hprevnone2, _, _⟩ := splitStep_ok hstep2
  obtain ⟨rg, nx3, out3, hstep3, hrest3, hout2⟩ := splitsGo_cons_ok hrest2
  obtain ⟨_, _, _, hsub3⟩ := splitStep_ok hstep3
  refine ⟨rm, rf, rg, out3, ?_, hmt, htnone1 hmt, ?_, ?_⟩
  · rw [hout, hout1, hout2]
  · exact hprevnone2 (hnx1.trans hmt)
  · intro tf tg htf htg
    exact hsub3 tf tg (hnx2.trans htf) htg

/-- Witness for C4: a four-punch sequence at times 100, Missing, 250, 280:
the missing punch's time and split time are absent, the next punch (time
250) has an absent split time, and the punch after it gets `280 - 250`. -/
theorem missing_punch_poisons_next_split_witness :
    splitsGo (some 0)
      [splitE "31" "100", missingSplitE "32", splitE "33" "250",
        splitE "34" "280"] =
      .ok [⟨some "31", some 100, some 100⟩, ⟨some "32", none, none⟩,
        ⟨some "33", some 250, none⟩, ⟨some "34", some 280, some 30⟩] ∧
    ∃ rm rf rg out',
      ([⟨some "32", none, none⟩, ⟨some "33", some 250, none⟩,
        ⟨some "34", some 280, some 30⟩] : List Split0) =
        rm :: rf :: rg :: out' ∧
      rm.time = none ∧ rm.split_time = none ∧ rf.split_time = none ∧
      (∀ tf tg, rf.time = some tf → rg.time = some tg →
        rg.split_time = some (tg - tf)) :=
  ⟨by decide,
   missing_punch_poisons_next_split (some 100) (missingSplitE "32")
     (splitE "33" "250") (splitE "34" "280") [] _ (by decide) (by decide)⟩

/-- C7: for every successfully extracted competitor, the position is present
if and only if the status string equals exactly `"OK"`. -/
theorem position_present_iff_status_ok (pr : Elem) (pd : PersonDict)
    (h : extract_person_result pr = .ok pd) :
    pd.position ≠ none ↔ pd.status = some "OK" := by
  cases hne : elemOrError (pr.findDesc "Name") with
  | error e =>
    simp only [extract_person_result, hne, exceptBind_error] at h
    exact Except.noConfusion h
  | ok name_elem =>
  cases hfam : textOf (name_elem.findChild "Family") with
  | error e =>
    simp only [extract_person_result, hne, hfam, exceptBind_error,
      exceptBind_ok] at h
    exact Except.noConfusion h
  | ok family_name =>
  cases hgiv : textOf (name_elem.findChild "Given") with
  | error e =>
    simp only [extract_person_result, hne, hfam, hgiv, exceptBind_error,
      exceptBind_ok] at h
    exact Except.noConfusion h
  | ok given_name =>
  cases horg : elemOrError (pr.findDesc "Organisation") with
  | error e =>
    simp only [extract_person_result, hne, hfam, hgiv, horg, exceptBind_error,
      exceptBind_ok] at h
    exact Except.noConfusion h
  | ok organisation =>
  cases hclub : textOf (organisation.findChild "Name") with
  | error e =>
    simp only [extract_person_result, hne, hfam, hgiv, horg, hclub,
      exceptBind_error, exceptBind_ok] at h
    exact Except.noConfusion h
  | ok club =>
  cases hres : elemOrError (pr.findDesc "Result") with
  | error e =>
    simp only [extract_person_result, hne, hfam, hgiv, horg, hclub, hres,
      exceptBind_error, exceptBind_ok] at h
    exact Except.noConfusion h
  | ok result =>
  cases hsta : textOf (result.findDesc "Status") with
  | error e =>
    simp only [extract_person_result, hne, hfam, hgiv, horg, hclub, hres,
      hsta, exceptBind_error, exceptBind_ok] at h
    exact Except.noConfusion h
  | ok status =>
  by_cases hok : status = some "OK"
  · cases hpt : textOf (result.findChild "Position") with
    | error e =>
      simp only [extract_person_result, hne, hfam, hgiv, horg, hclub, hres,
        hsta, if_pos hok, hpt, exceptBind_error, exceptBind_ok] at h
      exact Except.noConfusion h
    | ok ptext =>
    cases hpp : parseIntText ptext with
    | error e =>
      simp only [extract_person_result, hne, hfam, hgiv, horg, hclub, hres,
        hsta, if_pos hok, hpt, hpp, exceptBind_error, exceptBind_ok] at h
      exact Except.noConfusion h
    | ok pos =>
    cases htt : textOf (result.findDesc "Time") with
    | error e =>
      simp only [extract_person_result, hne, hfam, hgiv, horg, hclub, hres,
        hsta, if_pos hok, hpt, hpp, htt, exceptBind_error, exceptBind_ok] at h
      exact Except.noConfusion h
    | ok ttext =>
    cases hti : parseIntText ttext with
    | error e =>
      simp only [extract_person_result, hne, hfam, hgiv, horg, hclub, hres,
        hsta, if_pos hok, hpt, hpp, htt, hti, exceptBind_error,
        exceptBind_ok] at h
      exact Except.noConfusion h
    | ok total =>
    cases hsp : compute_split_information pr with
    | error e =>
      simp only [extract_person_result, hne, hfam, hgiv, horg, hclub, hres,
        hsta, if_pos hok, hpt, hpp, htt, hti, hsp, exceptBind_error,
        exceptBind_ok] at h
      exact Except.noConfusion h
    | ok splits =>
      simp only [extract_person_result, hne, hfam, hgiv, horg, hclub, hres,
        hsta, if_pos hok, hpt, hpp, htt, hti, hsp, exceptBind_ok,
        exceptPure_def] at h
      cases h
      simp [hok]
  · cases htt : textOf (result.findDesc "Time") with
    | error e =>
      simp only [extract_person_result, hne, hfam, hgiv, horg, hclub, hres,
        hsta, if_neg hok, htt, exceptBind_error, exceptBind_ok,
        exceptPure_def] at h
      exact Except.noConfusion h
    | ok ttext =>
    cases hti : parseIntText ttext with
    | error e =>
      simp only [extract_person_result, hne, hfam, hgiv, horg, hclub, hres,
        hsta, if_neg hok, htt, hti, exceptBind_error, exceptBind_ok,
        exceptPure_def] at h
      exact Except.noConfusion h
    | ok total =>
    cases hsp : compute_split_information pr with
    | error e =>
      simp only [extract_person_result, hne, hfam, hgiv, horg, hclub, hres,
        hsta, if_neg hok, htt, hti, hsp, exceptBind_error, exceptBind_ok,
        exceptPure_def] at h
      exact Except.noConfusion h
    | ok splits =>
      simp only [extract_person_result, hne, hfam, hgiv, horg, hclub, hres,
        hsta, if_neg hok, htt, hti, hsp, exceptBind_ok, exceptPure_def] at h
      cases h
      simp [hok]

/-- Witness for C7: a competitor with status `"DSQ"` and a `Position`
element in the document extracts with an absent position, and the
present-iff-OK equivalence holds for it. -/
theorem position_present_iff_status_ok_witness :
    extract_person_result exPersonDsqE = .ok exPersonDsq ∧
    exPersonDsq.position = none ∧
    (exPersonDsq.position ≠ none ↔ exPersonDsq.status = some "OK") :=
  ⟨by decide, by decide,
   position_present_iff_status_ok exPersonDsqE exPersonDsq (by decide)⟩

/-- Counterexample to C8: in `exDocNoText` the `Event/Name` element is
present but its text node is absent, yet the transformation does not raise —
it returns a full report whose event name is the absent text. -/
theorem absent_text_node_no_error :
    process_xml exDocNoText = Except.ok exRepNoText ∧
    exRepNoText.event_data.name = none := by
  with_unfolding_all decide

/-- C8 (amended): an absent required element aborts the transformation (an
absent `Event` element raises the attribute error at once), and a competitor
whose extraction fails aborts the entire run — no partial report and no
skipping of the malformed competitor; an absent text node on a present
string-valued element, however, does not raise. -/
theorem missing_element_aborts_whole_document :
    (∀ root : Elem, root.findDesc "Event" = none →
      process_xml root = .error .attributeError) ∧
    (∀ (root : Elem) (ed : EventData) (pr : Elem) (e : PyErr),
      extract_event_data root = .ok ed →
      pr ∈ root.findallDesc "PersonResult" →
      extract_person_result pr = .error e →
      ∃ e', process_xml root = .error e') := by
  constructor
  · intro root hnone
    have hed : extract_event_data root = .error .attributeError := by
      simp only [extract_event_data, hnone, elemOrError, exceptBind_error]
    simp only [process_xml, hed, exceptBind_error]
  · intro root ed pr e hed hpr herr
    obtain ⟨e2, he2⟩ :=
      mapE_error_of_mem extract_person_result
        (root.findallDesc "PersonResult") pr hpr
        (fun y hy => Except.noConfusion (herr.symm.trans hy))
    have hrl : extract_result_list root = .error e2 := he2
    refine ⟨e2, ?_⟩
    simp only [process_xml, hed, hrl, exceptBind_ok, exceptBind_error]

/-- Witness for C8 (amended): a document with no `Event` element aborts with
the attribute error, and `exDocBadPerson` — whose only competitor lacks an
`Organisation` element — aborts the whole run. -/
theorem missing_element_aborts_whole_document_witness :
    process_xml (nodeE "ResultList" []) = .error .attributeError ∧
    (∃ e', process_xml exDocBadPerson = .error e') ∧
    process_xml exDocBadPerson = .error .attributeError :=
  ⟨missing_element_aborts_whole_document.1 (nodeE "ResultList" []) rfl,
   missing_element_aborts_whole_document.2 exDocBadPerson
     ⟨some "Spring Cup", some "Men Elite", some "2024-04-01"⟩
     badPersonE .attributeError (by decide)
     (List.mem_singleton_self badPersonE) (by decide),
   by decide⟩
